import Mathlib

/-!
Verification of the Quetzal crawler core (src/quetzal/simple_crawler.py).

The development shallowly embeds the crawler as executable Lean functions:
URL helpers model the urllib.parse operations the source relies on,
`extract_links` models `SimpleCrawler.extract_links`, `parse_sitemap`
models `SimpleCrawler.parse_sitemap` (with explicit fuel for its
unbounded recursion through sitemap indexes), `can_fetch` models
`SimpleCrawler._can_fetch`, and `crawl_with_depth` models
`SimpleCrawler.crawl_with_depth` as a fuel-indexed loop over an explicit
crawl state.  External collaborators (HTTP transport, BeautifulSoup,
the XML library, the robots parser) are represented by environment
records supplying their observable results, exactly at the boundary the
source calls them.
-/

/-- Splits a character list at the first occurrence of the literal
separator "://", returning the parts before and after it. -/
def splitSchemeSep : List Char → Option (List Char × List Char)
  | [] => none
  | ':' :: '/' :: '/' :: rest => some ([], rest)
  | c :: rest =>
    match splitSchemeSep rest with
    | some (a, b) => some (c :: a, b)
    | none => none

/-- Scheme component of a URL, as used via urlparse in the source:
the text before "://", or empty when no separator is present. -/
def scheme_of (url : String) : String :=
  match splitSchemeSep url.data with
  | some (a, _) => String.mk a
  | none => ""

/-- Network-location (authority) component of a URL, modelling
urlparse(url).netloc: the text after "://" up to the first slash,
question mark or hash; empty when no "://" is present. -/
def netloc (url : String) : String :=
  match splitSchemeSep url.data with
  | some (_, b) => String.mk (b.takeWhile (fun c => !(c == '/') && !(c == '?') && !(c == '#')))
  | none => ""

/-- Path component of a URL: the text from the first slash after the
authority onwards (query and fragment included, which is enough for the
joins the source performs). -/
def path_of (url : String) : String :=
  match splitSchemeSep url.data with
  | some (_, b) => String.mk (b.dropWhile (fun c => !(c == '/') && !(c == '?') && !(c == '#')))
  | none => url

/-- Boolean test that `pre` is a prefix of `s`, on the character lists. -/
def strStartsWith (s pre : String) : Bool := pre.data.isPrefixOf s.data

/-- Boolean test that `suf` is a suffix of `s`, on the character lists,
modelling str.endswith in the source. -/
def strEndsWith (s suf : String) : Bool := suf.data.isSuffixOf s.data

/-- Directory part of a path: everything up to and including the last
slash, or the root slash when the path has no slash. -/
def dirname (p : String) : String :=
  let rev := p.data.reverse.dropWhile (fun c => !(c == '/'))
  if rev = [] then "/" else String.mk rev.reverse

/-- Model of urllib.parse.urljoin restricted to the shapes the source
exercises: absolute references are returned unchanged, protocol-relative
and root-relative references are resolved against the base scheme and
authority, and other references are resolved against the directory of
the base path. -/
def urljoin (base href : String) : String :=
  if href = "" then base
  else if (splitSchemeSep href.data).isSome then href
  else if strStartsWith href "//" then scheme_of base ++ ":" ++ href
  else if strStartsWith href "/" then scheme_of base ++ "://" ++ netloc base ++ href
  else scheme_of base ++ "://" ++ netloc base ++ dirname (path_of base) ++ href

/-- Model of `SimpleCrawler._is_valid_url` (lines 54-61): the parsed URL
must have a non-empty scheme and a non-empty authority. -/
def is_valid_url (url : String) : Bool :=
  !(scheme_of url == "") && !(netloc url == "")

/-- Model of `SimpleCrawler.extract_links` (lines 126-171).  The anchor
hrefs already extracted by BeautifulSoup are given in document order;
`can_fetch_fn` stands for the `_can_fetch` politeness decision and
`pats` for the compiled url_patterns (re.search outcomes).  When
`base_url` is non-empty each href is resolved, pattern-filtered, kept
only for the same authority or a dot-separated subdomain of it, and
only when valid and fetchable; with an empty base URL every valid,
fetchable href is kept unchanged. -/
def extract_links_go (can_fetch_fn : String → Bool) (base_url : String)
    (pats : List (String → Bool)) : List String → List String → List String
  | links, [] => links
  | links, href :: anchors =>
    if base_url ≠ "" then
      let full := urljoin base_url href
      if (!pats.isEmpty && !pats.any (fun p => p full)) = true then
        extract_links_go can_fetch_fn base_url pats links anchors
      else
        if netloc full = netloc base_url ∨
            strEndsWith (netloc full) ("." ++ netloc base_url) = true then
          if is_valid_url full = true ∧ can_fetch_fn full = true then
            extract_links_go can_fetch_fn base_url pats (links ++ [full]) anchors
          else extract_links_go can_fetch_fn base_url pats links anchors
        else extract_links_go can_fetch_fn base_url pats links anchors
    else
      if is_valid_url href = true ∧ can_fetch_fn href = true then
        extract_links_go can_fetch_fn base_url pats (links ++ [href]) anchors
      else extract_links_go can_fetch_fn base_url pats links anchors

/-- Entry point of the model of `extract_links`: the accumulated link
list starts empty, as `links = []` at line 141 of the source. -/
def extract_links (can_fetch_fn : String → Bool) (anchors : List String)
    (base_url : String) (pats : List (String → Bool)) : List String :=
  extract_links_go can_fetch_fn base_url pats [] anchors

/-- Observable outcome of parsing one fetched sitemap body with
xml.etree.ElementTree: the `<sitemap><loc>` texts found under a sitemap
index and the `<url><loc>` texts found under a urlset, each restricted
to `loc` elements that are present with non-empty text, in document
order (lines 205-210 and 220-223 of the source). -/
structure SmDoc where
  sitemapLocs : List String
  urlLocs : List String

/-- Observable outcome of `requests.get` on a sitemap URL followed by
the textual index-marker test and the XML parse: the HTTP status, the
result of the test for the literal "<sitemapindex" substring in the
body, and the parsed document (`none` models an ET.ParseError or any
other exception raised while parsing). -/
structure SmResponse where
  status : Nat
  hasIndexMarker : Bool
  parse : Option SmDoc

/-- Model of `SimpleCrawler.parse_sitemap` (lines 173-233).  The
environment maps a sitemap URL to the fetch outcome, with `none`
standing for a network error or any exception during the request.  The
Nat argument is recursion fuel: the source recurses through sitemap
indexes without any cycle guard, so the embedding cuts the recursion off
(returning the empty list) when fuel runs out.  A non-200 status, a
fetch exception, or a parse failure all yield the empty list, exactly as
the early return and the two except branches of the source do. -/
def parse_sitemap (env : String → Option SmResponse) : Nat → String → List String
  | 0, _ => []
  | f + 1, url =>
    match env url with
    | none => []
    | some r =>
      if r.status ≠ 200 then []
      else if r.hasIndexMarker = true then
        match r.parse with
        | none => []
        | some doc => doc.sitemapLocs.flatMap (fun loc => parse_sitemap env f loc)
      else
        match r.parse with
        | none => []
        | some doc => doc.urlLocs

/-- Parsed robots.txt ruleset for one authority, reduced to the one
query the source makes of it: the decision of
`robot_parser.can_fetch("*", url)` for each URL. -/
def RobotRules := String → Bool

/-- Environment for the robots machinery: maps an authority (netloc) to
the ruleset obtained by fetching and parsing its robots.txt, or `none`
when `RobotFileParser.read` raises (timeout, network error, parse
failure). -/
structure RobotsEnv where
  fetchRobots : String → Option RobotRules

/-- Model of `SimpleCrawler._get_robot_parser` (lines 70-91): returns
`none` immediately when politeness is disabled; otherwise consults the
per-authority cache, and on a miss fetches and parses robots.txt,
caching and returning the ruleset on success and returning `none`
without caching when the fetch or parse raises.  The updated cache is
returned alongside the result. -/
def get_robot_rules (respect : Bool) (env : RobotsEnv)
    (cache : List (String × RobotRules)) (url : String) :
    Option RobotRules × List (String × RobotRules) :=
  if respect = false then (none, cache)
  else
    match cache.lookup (netloc url) with
    | some rp => (some rp, cache)
    | none =>
      match env.fetchRobots (netloc url) with
      | some rp => (some rp, (netloc url, rp) :: cache)
      | none => (none, cache)

/-- Model of `SimpleCrawler._can_fetch` (lines 93-105): true when
politeness is disabled; otherwise evaluates the cached or freshly
fetched ruleset, and returns true whenever no ruleset is available (the
fail-open branches of the source). -/
def can_fetch (respect : Bool) (env : RobotsEnv)
    (cache : List (String × RobotRules)) (url : String) :
    Bool × List (String × RobotRules) :=
  if respect = false then (true, cache)
  else
    match get_robot_rules respect env cache url with
    | (some rp, c2) => (rp url, c2)
    | (none, c2) => (true, c2)

/-- Default max_depth of `SimpleCrawler.__init__` (line 26). -/
def init_max_depth : Nat := 3

/-- Default max_pages of `SimpleCrawler.__init__` (line 25). -/
def init_max_pages : Nat := 100

/-- Model of the parameter-override checks at lines 308-312 of
`crawl_with_depth`: the Python test is `if not max_depth`, a falsiness
test, so both `None` and `0` are replaced by the instance value. -/
def effectiveParam (arg : Option Nat) (instVal : Nat) : Nat :=
  match arg with
  | none => instVal
  | some v => if v = 0 then instVal else v

/-- Python truthiness of the `content` value returned by `crawl`: a
string is truthy exactly when it is present and non-empty (the
`if content:` test at line 352). -/
def truthy : Option String → Bool
  | none => false
  | some s => !s.isEmpty

/-- External world of one `crawl_with_depth` invocation.  `crawl` gives
the outcome of the per-URL `self.crawl` dispatch (extracted text, if
any, and the extracted links, in order); `headStatus` the status of the
`requests.head` probe of the sitemap URL, with `none` for an exception;
`smEnv` and `smFuel` the fetch environment and recursion fuel for
`parse_sitemap`. -/
structure CrawlEnv where
  crawl : String → Option String × List String
  headStatus : Option Nat
  smEnv : String → Option SmResponse
  smFuel : Nat

/-- Mutable state of the `crawl_with_depth` loop: the frontier queue of
(url, depth) pairs, the visited set, the results dict as an association
list in insertion order, the page counter, and (for the statements of
the theorems) the trace of URLs dispatched to `self.crawl`, in order. -/
structure CrawlState where
  queue : List (String × Nat)
  visited : List String
  results : List (String × String)
  pageCount : Nat
  dispatched : List String

/-- Python dict assignment `results[url] = content`: replace the value
when the key is present, append the pair otherwise. -/
def dictInsert (l : List (String × String)) (k v : String) :
    List (String × String) :=
  if k ∈ l.map Prod.fst then l.map (fun p => if p.1 = k then (k, v) else p)
  else l ++ [(k, v)]

/-- Model of the link-enqueueing loop at lines 363-372: each link is
skipped when a non-empty pattern list matches none of the patterns, or
when the link is already in the visited set; otherwise it is appended to
the queue at depth + 1. -/
def enqueueLinks (pats : List (String → Bool)) (vis : List String)
    (depth : Nat) : List (String × Nat) → List String → List (String × Nat)
  | q, [] => q
  | q, link :: links =>
    if (!pats.isEmpty && !pats.any (fun p => p link)) = true then
      enqueueLinks pats vis depth q links
    else if link ∈ vis then enqueueLinks pats vis depth q links
    else enqueueLinks pats vis depth (q ++ [(link, depth + 1)]) links

/-- Model of the while loop of `crawl_with_depth` (lines 338-373),
indexed by fuel since the Python loop need not terminate on an infinite
site.  Each iteration: stop when the queue is empty or the page budget
is reached; pop the head entry; skip it when already visited or deeper
than max_depth; otherwise mark it visited, dispatch it via `crawl`, and
when the content is truthy record it, bump the page counter, stop if the
budget is now met, and otherwise enqueue the links when depth is
strictly below max_depth. -/
def crawlLoop (env : CrawlEnv) (maxD maxP : Nat)
    (pats : List (String → Bool)) : Nat → CrawlState → CrawlState
  | 0, s => s
  | fuel + 1, s =>
    match s.queue with
    | [] => s
    | (url, depth) :: rest =>
      if maxP ≤ s.pageCount then s
      else if url ∈ s.visited ∨ maxD < depth then
        crawlLoop env maxD maxP pats fuel
          { s with queue := rest }
      else
        let vis2 := s.visited ++ [url]
        let disp2 := s.dispatched ++ [url]
        let cl := env.crawl url
        if truthy cl.1 = true then
          let res2 := dictInsert s.results url (cl.1.getD "")
          let pc2 := s.pageCount + 1
          if maxP ≤ pc2 then
            { queue := rest, visited := vis2, results := res2,
              pageCount := pc2, dispatched := disp2 }
          else
            crawlLoop env maxD maxP pats fuel
              { queue := if depth < maxD then enqueueLinks pats vis2 depth rest cl.2 else rest,
                visited := vis2, results := res2,
                pageCount := pc2, dispatched := disp2 }
        else
          crawlLoop env maxD maxP pats fuel
            { queue := rest, visited := vis2, results := s.results,
              pageCount := s.pageCount, dispatched := disp2 }

/-- URLs yielded by the sitemap-seeding phase (lines 319-335): when the
HEAD probe of `urljoin(start_url, "/sitemap.xml")` answers 200, the
result of `parse_sitemap` on that URL; on any other status, or when the
probe raises, no seeds. -/
def sitemapSeeds (env : CrawlEnv) (start_url : String) : List String :=
  match env.headStatus with
  | some 200 => parse_sitemap env.smEnv env.smFuel (urljoin start_url "/sitemap.xml")
  | _ => []

/-- Seeding loop of lines 330-333: each sitemap URL is appended to the
queue at depth 0 unless it is in the visited set, which at seeding time
is the freshly created empty set of line 316. -/
def seedQueue_go : List (String × Nat) → List String → List (String × Nat)
  | q, [] => q
  | q, u :: us =>
    if u ∈ ([] : List String) then seedQueue_go q us
    else seedQueue_go (q ++ [(u, 0)]) us

/-- Frontier construction of lines 315 and 330-333: the queue starts as
the singleton `(start_url, 0)` and the seeding loop then appends the
sitemap URLs at depth 0. -/
def seedQueue (start_url : String) (smUrls : List String) :
    List (String × Nat) :=
  seedQueue_go [(start_url, 0)] smUrls

/-- Initial frontier of a `crawl_with_depth` invocation: the start URL
entry followed by the sitemap seeds. -/
def initialFrontier (env : CrawlEnv) (start_url : String) :
    List (String × Nat) :=
  seedQueue start_url (sitemapSeeds env start_url)

/-- Model of `SimpleCrawler.crawl_with_depth` (lines 292-375): resolve
the optional max_depth and max_pages arguments by falsiness against the
instance values, build the frontier (start URL first, sitemap seeds
appended), and run the crawl loop from the empty visited set, empty
results and zero page count. -/
def crawl_with_depth (env : CrawlEnv) (start_url : String)
    (maxDepthArg maxPagesArg : Option Nat) (pats : List (String → Bool))
    (instMaxDepth instMaxPages : Nat) (fuel : Nat) : CrawlState :=
  crawlLoop env (effectiveParam maxDepthArg instMaxDepth)
    (effectiveParam maxPagesArg instMaxPages) pats fuel
    { queue := initialFrontier env start_url, visited := [],
      results := [], pageCount := 0, dispatched := [] }

/-- Reachability of a URL by a chain of at most `n` link steps from a
seed set: the link relation is given by the second component of
`env.crawl` (the links the dispatcher extracts from a page). -/
inductive Reach (env : CrawlEnv) (seeds : List String) : Nat → String → Prop
  | seed {u : String} {n : Nat} : u ∈ seeds → Reach env seeds n u
  | step {u v : String} {n : Nat} :
      Reach env seeds n u → v ∈ (env.crawl u).2 → Reach env seeds (n + 1) v

/-- Sitemap fetch environment of a site whose sitemap is a plain urlset
listing the single page m. -/
def smEnvOne : String → Option SmResponse := fun u =>
  if u = "http://a/sitemap.xml" then
    some { status := 200, hasIndexMarker := false,
           parse := some { sitemapLocs := [], urlLocs := ["http://a/m"] } }
  else none

/-- Crawl environment of a two-page site with a sitemap listing m: the
start page and m both carry text and no links. -/
def envOne : CrawlEnv :=
  { crawl := fun u =>
      if u = "http://a/" then (some "A", [])
      else if u = "http://a/m" then (some "M", [])
      else (none, []),
    headStatus := some 200,
    smEnv := smEnvOne,
    smFuel := 1 }

/-- Sitemap fetch environment whose urlset lists the page m twice. -/
def smEnvDup : String → Option SmResponse := fun u =>
  if u = "http://a/sitemap.xml" then
    some { status := 200, hasIndexMarker := false,
           parse := some { sitemapLocs := [], urlLocs := ["http://a/m", "http://a/m"] } }
  else none

/-- Crawl environment whose sitemap lists the same URL twice. -/
def envDup : CrawlEnv :=
  { crawl := fun u =>
      if u = "http://a/" then (some "A", [])
      else if u = "http://a/m" then (some "M", [])
      else (none, []),
    headStatus := some 200,
    smEnv := smEnvDup,
    smFuel := 1 }

/-- Crawl environment of a one-page site with no sitemap. -/
def envSolo : CrawlEnv :=
  { crawl := fun u => if u = "http://a/" then (some "T", []) else (none, []),
    headStatus := none,
    smEnv := fun _ => none,
    smFuel := 0 }

/-- Sitemap fetch environment of a sitemap index pointing at two child
sitemaps of three leaf URLs each. -/
def smEnvIdx : String → Option SmResponse := fun u =>
  if u = "http://a/i" then
    some { status := 200, hasIndexMarker := true,
           parse := some { sitemapLocs := ["http://a/s1", "http://a/s2"], urlLocs := [] } }
  else if u = "http://a/s1" then
    some { status := 200, hasIndexMarker := false,
           parse := some { sitemapLocs := [], urlLocs := ["u1", "u2", "u3"] } }
  else if u = "http://a/s2" then
    some { status := 200, hasIndexMarker := false,
           parse := some { sitemapLocs := [], urlLocs := ["u4", "u5", "u6"] } }
  else none

/-- Sitemap fetch environment exhibiting the three failure modes: a URL
whose fetch raises, a URL answering 404, and a URL whose body is
malformed XML. -/
def smEnvFail : String → Option SmResponse := fun u =>
  if u = "http://a/404.xml" then
    some { status := 404, hasIndexMarker := false, parse := some { sitemapLocs := [], urlLocs := ["x"] } }
  else if u = "http://a/bad.xml" then
    some { status := 200, hasIndexMarker := false, parse := none }
  else none

/-- Placeholder response used to instantiate universally quantified
response arguments at inputs where the environment returns nothing. -/
def smNoResponse : SmResponse :=
  { status := 0, hasIndexMarker := false, parse := none }

/-- Robots environment in which every robots.txt fetch fails. -/
def robotsEnvDown : RobotsEnv := { fetchRobots := fun _ => none }

/-- Seeding appends every sitemap URL: the visited test of the seeding
loop compares against the empty set and never filters. -/
theorem seedQueue_go_eq (us : List String) :
    ∀ q : List (String × Nat), seedQueue_go q us = q ++ us.map (fun u => (u, 0)) := by
  induction us with
  | nil => intro q; simp [seedQueue_go]
  | cons u us ih => intro q; simp [seedQueue_go, ih]

/-- Closed form of the initial frontier: the start entry followed by the
sitemap URLs at depth 0, in sitemap order. -/
theorem seedQueue_eq (start_url : String) (sm : List String) :
    seedQueue start_url sm = (start_url, 0) :: sm.map (fun u => (u, 0)) := by
  simp [seedQueue, seedQueue_go_eq]

/-- Dict assignment grows the map by at most one entry. -/
theorem dictInsert_length (l : List (String × String)) (k v : String) :
    (dictInsert l k v).length ≤ l.length + 1 := by
  unfold dictInsert
  split_ifs with h
  · simp
  · simp

/-- Keys after a dict assignment: the assigned key or an existing key. -/
theorem dictInsert_keys {l : List (String × String)} {k v u : String}
    (h : u ∈ (dictInsert l k v).map Prod.fst) :
    u = k ∨ u ∈ l.map Prod.fst := by
  unfold dictInsert at h
  split_ifs at h with hk
  · rw [List.map_map] at h
    obtain ⟨p, hp, he⟩ := List.mem_map.mp h
    by_cases hpk : p.1 = k
    · left
      simpa [hpk] using he.symm
    · right
      exact List.mem_map.mpr ⟨p, hp, by simpa [hpk] using he⟩
  · simp only [List.map_append, List.mem_append] at h
    rcases h with h | h
    · exact Or.inr h
    · left
      simpa using h

/-- Entries produced by the link-enqueueing loop are either pre-existing
queue entries or carry a link of the input list at depth + 1. -/
theorem enqueueLinks_mem (pats : List (String → Bool)) (vis : List String)
    (depth : Nat) :
    ∀ (links : List String) (q : List (String × Nat)) (x : String × Nat),
      x ∈ enqueueLinks pats vis depth q links →
      x ∈ q ∨ (x.1 ∈ links ∧ x.2 = depth + 1) := by
  intro links
  induction links with
  | nil => intro q x hx; exact Or.inl hx
  | cons l ls ih =>
    intro q x hx
    simp only [enqueueLinks] at hx
    split_ifs at hx with h1 h2
    · rcases ih q x hx with h | h
      · exact Or.inl h
      · exact Or.inr ⟨List.mem_cons_of_mem _ h.1, h.2⟩
    · rcases ih q x hx with h | h
      · exact Or.inl h
      · exact Or.inr ⟨List.mem_cons_of_mem _ h.1, h.2⟩
    · rcases ih (q ++ [(l, depth + 1)]) x hx with h | h
      · rcases List.mem_append.mp h with h | h
        · exact Or.inl h
        · simp only [List.mem_singleton] at h
          subst h
          exact Or.inr ⟨List.mem_cons_self _ _, rfl⟩
      · exact Or.inr ⟨List.mem_cons_of_mem _ h.1, h.2⟩

/-- Entries produced by the link-enqueueing loop are either pre-existing
queue entries or carry a URL that is not in the visited set: the loop
checks `link not in visited` before appending. -/
theorem enqueueLinks_fresh (pats : List (String → Bool)) (vis : List String)
    (depth : Nat) :
    ∀ (links : List String) (q : List (String × Nat)) (x : String × Nat),
      x ∈ enqueueLinks pats vis depth q links → x ∈ q ∨ x.1 ∉ vis := by
  intro links
  induction links with
  | nil => intro q x hx; exact Or.inl hx
  | cons l ls ih =>
    intro q x hx
    simp only [enqueueLinks] at hx
    split_ifs at hx with h1 h2
    · exact ih q x hx
    · exact ih q x hx
    · rcases ih (q ++ [(l, depth + 1)]) x hx with h | h
      · rcases List.mem_append.mp h with h | h
        · exact Or.inl h
        · simp only [List.mem_singleton] at h
          subst h
          exact Or.inr h2
      · exact Or.inr h

/-- Reachability within a step bound is monotone in the bound. -/
theorem Reach.le {env : CrawlEnv} {seeds : List String} :
    ∀ {n m : Nat} {u : String}, Reach env seeds n u → n ≤ m → Reach env seeds m u := by
  intro n m u h
  induction h generalizing m with
  | seed hs => intro _; exact Reach.seed hs
  | step hr hl ih =>
    intro hnm
    obtain ⟨m2, rfl⟩ : ∃ m2, m = m2 + 1 := ⟨m - 1, by omega⟩
    exact Reach.step (ih (by omega)) hl


/-- Page-budget invariant of the crawl loop: the results map never has
more entries than the page counter, and the counter never exceeds the
budget, since the loop body only runs while the counter is strictly
below the budget and each recorded page bumps the counter by one. -/
theorem crawlLoop_pages (env : CrawlEnv) (d p : Nat)
    (pats : List (String → Bool)) :
    ∀ (fuel : Nat) (s : CrawlState),
      s.results.length ≤ s.pageCount → s.pageCount ≤ p →
      (crawlLoop env d p pats fuel s).results.length ≤
          (crawlLoop env d p pats fuel s).pageCount ∧
        (crawlLoop env d p pats fuel s).pageCount ≤ p := by
  intro fuel
  induction fuel with
  | zero => intro s h1 h2; exact ⟨h1, h2⟩
  | succ n ih =>
    intro s h1 h2
    obtain ⟨sq, sv, sr, spc, sd⟩ := s
    rcases sq with _ | ⟨⟨url, depth⟩, rest⟩
    · exact ⟨h1, h2⟩
    · simp only [crawlLoop]
      split_ifs with hb hskip ht hstop hdep
      · exact ⟨h1, h2⟩
      · exact ih _ h1 h2
      · constructor
        · exact le_trans (dictInsert_length sr url _) (by simpa using Nat.succ_le_succ h1)
        · simp only [not_le] at hb
          simpa using hb
      · refine ih _ ?_ ?_
        · exact le_trans (dictInsert_length sr url _) (by simpa using Nat.succ_le_succ h1)
        · simp only [not_le] at hb
          simpa using hb
      · refine ih _ ?_ ?_
        · exact le_trans (dictInsert_length sr url _) (by simpa using Nat.succ_le_succ h1)
        · simp only [not_le] at hb
          simpa using hb
      · exact ih _ h1 h2

/-- Reachability invariant of the crawl loop: when every queue entry is
reachable within its recorded depth and every recorded result is
reachable within the depth budget, the same holds after running the
loop, because entries deeper than the budget are skipped and links are
only enqueued one step beyond the page they came from. -/
theorem crawlLoop_reach (env : CrawlEnv) (d p : Nat)
    (pats : List (String → Bool)) (seeds : List String) :
    ∀ (fuel : Nat) (s : CrawlState),
      (∀ x ∈ s.queue, Reach env seeds x.2 x.1) →
      (∀ u ∈ s.results.map Prod.fst, Reach env seeds d u) →
      ∀ u ∈ (crawlLoop env d p pats fuel s).results.map Prod.fst,
        Reach env seeds d u := by
  intro fuel
  induction fuel with
  | zero => intro s hq hr; exact hr
  | succ n ih =>
    intro s hq hr
    obtain ⟨sq, sv, sr, spc, sd⟩ := s
    rcases sq with _ | ⟨⟨url, depth⟩, rest⟩
    · exact hr
    · have hqrest : ∀ x ∈ rest, Reach env seeds x.2 x.1 :=
        fun x hx => hq x (List.mem_cons_of_mem _ hx)
      have hqhead : Reach env seeds depth url := hq (url, depth) (List.mem_cons_self _ _)
      simp only [crawlLoop]
      split_ifs with hb hskip ht hstop hdep
      · exact hr
      · exact ih _ hqrest hr
      · have hdd : depth ≤ d := by
          push_neg at hskip
          omega
        intro u hu
        rcases dictInsert_keys hu with rfl | hu2
        · exact hqhead.le hdd
        · exact hr u hu2
      · have hdd : depth ≤ d := by
          push_neg at hskip
          omega
        refine ih _ ?_ ?_
        · intro x hx
          rcases enqueueLinks_mem pats (sv ++ [url]) depth (env.crawl url).2 rest x hx with
            hx2 | ⟨hx1, hx2⟩
          · exact hqrest x hx2
          · rw [hx2]
            exact Reach.step hqhead hx1
        · intro u hu
          rcases dictInsert_keys hu with rfl | hu2
          · exact hqhead.le hdd
          · exact hr u hu2
      · have hdd : depth ≤ d := by
          push_neg at hskip
          omega
        refine ih _ hqrest ?_
        intro u hu
        rcases dictInsert_keys hu with rfl | hu2
        · exact hqhead.le hdd
        · exact hr u hu2
      · exact ih _ hqrest hr

/-- Dispatch-uniqueness invariant of the crawl loop: when the dispatch
trace has no duplicates and every dispatched URL is in the visited set,
the same holds after running the loop, because a URL is dispatched only
when it is absent from the visited set and is added to it at the same
time. -/
theorem crawlLoop_nodup (env : CrawlEnv) (d p : Nat)
    (pats : List (String → Bool)) :
    ∀ (fuel : Nat) (s : CrawlState),
      s.dispatched.Nodup → (∀ u ∈ s.dispatched, u ∈ s.visited) →
      (crawlLoop env d p pats fuel s).dispatched.Nodup := by
  intro fuel
  induction fuel with
  | zero => intro s h1 _; exact h1
  | succ n ih =>
    intro s h1 h2
    obtain ⟨sq, sv, sr, spc, sd⟩ := s
    rcases sq with _ | ⟨⟨url, depth⟩, rest⟩
    · exact h1
    · simp only [crawlLoop]
      split_ifs with hb hskip ht hstop hdep
      · exact h1
      · exact ih _ h1 h2
      all_goals
        have hnv : url ∉ sv := by
          push_neg at hskip
          exact hskip.1
        have hnd : url ∉ sd := fun hc => hnv (h2 url hc)
        have h1b : (sd ++ [url]).Nodup := by
          simp [List.nodup_append, h1, hnd]
        have h2b : ∀ u ∈ sd ++ [url], u ∈ sv ++ [url] := by
          intro u hu
          rcases List.mem_append.mp hu with hu | hu
          · exact List.mem_append_left _ (h2 u hu)
          · exact List.mem_append_right _ hu
      · exact h1b
      · exact ih _ h1b h2b
      · exact ih _ h1b h2b
      · exact ih _ h1b h2b

/-- The crawl loop only ever appends to the dispatch trace. -/
theorem crawlLoop_dispatched_extend (env : CrawlEnv) (d p : Nat)
    (pats : List (String → Bool)) :
    ∀ (fuel : Nat) (s : CrawlState), ∃ t,
      (crawlLoop env d p pats fuel s).dispatched = s.dispatched ++ t := by
  intro fuel
  induction fuel with
  | zero => intro s; exact ⟨[], by simp [crawlLoop]⟩
  | succ n ih =>
    intro s
    obtain ⟨sq, sv, sr, spc, sd⟩ := s
    rcases sq with _ | ⟨⟨url, depth⟩, rest⟩
    · exact ⟨[], by simp [crawlLoop]⟩
    · simp only [crawlLoop]
      split_ifs with hb hskip ht hstop hdep
      · exact ⟨[], by simp⟩
      · exact ih _
      · exact ⟨[url], rfl⟩
      · obtain ⟨t, ht2⟩ := ih
          { queue := enqueueLinks pats (sv ++ [url]) depth rest (env.crawl url).2,
            visited := sv ++ [url],
            results := dictInsert sr url ((env.crawl url).1.getD ""),
            pageCount := spc + 1, dispatched := sd ++ [url] }
        exact ⟨[url] ++ t, by simpa using ht2⟩
      · obtain ⟨t, ht2⟩ := ih
          { queue := rest, visited := sv ++ [url],
            results := dictInsert sr url ((env.crawl url).1.getD ""),
            pageCount := spc + 1, dispatched := sd ++ [url] }
        exact ⟨[url] ++ t, by simpa using ht2⟩
      · obtain ⟨t, ht2⟩ := ih
          { queue := rest, visited := sv ++ [url], results := sr,
            pageCount := spc, dispatched := sd ++ [url] }
        exact ⟨[url] ++ t, by simpa using ht2⟩

/-- Domain-scoping invariant of the link-extraction loop: with a
non-empty base URL, every link added to the accumulator has passed the
same-authority-or-subdomain test. -/
theorem extract_links_go_scoped (cf : String → Bool) (base : String)
    (pats : List (String → Bool)) (hbase : base ≠ "") :
    ∀ (anchors acc : List String) (link : String),
      link ∈ extract_links_go cf base pats acc anchors →
      link ∈ acc ∨ netloc link = netloc base ∨
        strEndsWith (netloc link) ("." ++ netloc base) = true := by
  intro anchors
  induction anchors with
  | nil => intro acc link h; exact Or.inl h
  | cons href anchors ih =>
    intro acc link h
    simp only [extract_links_go] at h
    rw [if_pos hbase] at h
    split_ifs at h with h1 h2 h3
    · exact ih acc link h
    · rcases ih (acc ++ [urljoin base href]) link h with h4 | h4
      · rcases List.mem_append.mp h4 with h5 | h5
        · exact Or.inl h5
        · simp only [List.mem_singleton] at h5
          subst h5
          exact Or.inr h2
      · exact Or.inr h4
    · exact ih acc link h
    · exact ih acc link h

/-- C3: for every invocation of crawl_with_depth with page budget
maxPages (the effective budget after the falsiness override), the
returned result map contains at most maxPages entries, for any
environment, sitemap content, pattern list and fuel. -/
theorem C3_page_bound (env : CrawlEnv) (start_url : String)
    (mdArg mpArg : Option Nat) (pats : List (String → Bool))
    (iD iP : Nat) (fuel : Nat) :
    (crawl_with_depth env start_url mdArg mpArg pats iD iP fuel).results.length ≤
      effectiveParam mpArg iP := by
  have h := crawlLoop_pages env (effectiveParam mdArg iD) (effectiveParam mpArg iP)
    pats fuel
    { queue := initialFrontier env start_url, visited := [], results := [],
      pageCount := 0, dispatched := [] }
    (by simp) (by simp)
  exact le_trans h.1 h.2

/-- C4: for every invocation of crawl_with_depth with depth budget d
(the effective budget after the falsiness override), every URL recorded
in the result map is reachable from the seed set, namely the start URL
together with the sitemap URLs, by a chain of at most d links; hence a
URL not in the sitemap whose only discovery paths need more than d
links never appears as a result key.  Links are enqueued at depth + 1
only below the budget and deeper dequeued entries are skipped. -/
theorem C4_depth_bound (env : CrawlEnv) (start_url : String)
    (mdArg mpArg : Option Nat) (pats : List (String → Bool))
    (iD iP : Nat) (fuel : Nat) :
    ∀ u ∈ (crawl_with_depth env start_url mdArg mpArg pats iD iP fuel).results.map
        Prod.fst,
      Reach env (start_url :: sitemapSeeds env start_url) (effectiveParam mdArg iD) u := by
  refine crawlLoop_reach env (effectiveParam mdArg iD) (effectiveParam mpArg iP) pats
    (start_url :: sitemapSeeds env start_url) fuel
    { queue := initialFrontier env start_url, visited := [], results := [],
      pageCount := 0, dispatched := [] } ?_ ?_
  · intro x hx
    simp only [initialFrontier, seedQueue_eq] at hx
    rcases List.mem_cons.mp hx with rfl | hx2
    · exact Reach.seed (List.mem_cons_self _ _)
    · obtain ⟨u, hu, rfl⟩ := List.mem_map.mp hx2
      exact Reach.seed (List.mem_cons_of_mem _ hu)
  · intro u hu
    simp at hu

/-- Witness for C4 on a one-page site with no sitemap: the start URL is
recorded in the result map, and the theorem yields its reachability
within the default depth budget. -/
theorem C4_witness :
    Reach envSolo ("http://a/" :: sitemapSeeds envSolo "http://a/")
      (effectiveParam none 3) "http://a/" :=
  C4_depth_bound envSolo "http://a/" none none [] 3 100 5 "http://a/" (by decide)

/-- C5: during a single crawl_with_depth invocation each distinct URL
string is dispatched to the single-document crawl operation at most
once: the trace of dispatched URLs has no duplicates, for any
environment, budgets and fuel. -/
theorem C5_dispatch_once (env : CrawlEnv) (start_url : String)
    (mdArg mpArg : Option Nat) (pats : List (String → Bool))
    (iD iP : Nat) (fuel : Nat) :
    (crawl_with_depth env start_url mdArg mpArg pats iD iP fuel).dispatched.Nodup :=
  crawlLoop_nodup env (effectiveParam mdArg iD) (effectiveParam mpArg iP) pats fuel
    { queue := initialFrontier env start_url, visited := [], results := [],
      pageCount := 0, dispatched := [] }
    (by simp) (by simp)

/-- C10: passing max_depth = 0 or max_pages = 0 to crawl_with_depth has
no effect, because the override test is a falsiness check: the zero is
replaced by the instance value, a zero-argument call behaves exactly as
a call without the arguments, and the instance defaults of __init__ are
3 and 100. -/
theorem C10_zero_overrides_ignored (env : CrawlEnv) (start_url : String)
    (pats : List (String → Bool)) (iD iP : Nat) (fuel : Nat) :
    effectiveParam (some 0) iD = iD ∧ effectiveParam (some 0) iP = iP ∧
    crawl_with_depth env start_url (some 0) (some 0) pats iD iP fuel =
      crawl_with_depth env start_url none none pats iD iP fuel ∧
    init_max_depth = 3 ∧ init_max_pages = 100 :=
  ⟨rfl, rfl, rfl, rfl, rfl⟩

/-- C6: with a non-empty base URL, every link returned by extract_links
has an authority equal to the base authority or ending with a dot
followed by it; and on the concrete base "https://example.com/a" with
all links fetchable, the evil.com and notexample.com links are dropped
while the sub.example.com link is kept. -/
theorem C6_domain_scoping (cf : String → Bool) (anchors : List String)
    (pats : List (String → Bool)) (base : String) (hbase : base ≠ "") :
    (∀ link ∈ extract_links cf anchors base pats,
        netloc link = netloc base ∨
          strEndsWith (netloc link) ("." ++ netloc base) = true) ∧
    extract_links (fun _ => true)
        ["https://evil.com/x", "https://sub.example.com/y", "https://notexample.com/z"]
        "https://example.com/a" [] = ["https://sub.example.com/y"] := by
  refine ⟨fun link h => ?_, by decide⟩
  rcases extract_links_go_scoped cf base pats hbase anchors [] link h with h2 | h2
  · simp at h2
  · exact h2

/-- Witness for C6: the one link kept from the concrete document has the
subdomain-suffix property relative to the base authority. -/
theorem C6_witness :
    netloc "https://sub.example.com/y" = netloc "https://example.com/a" ∨
      strEndsWith (netloc "https://sub.example.com/y")
        ("." ++ netloc "https://example.com/a") = true :=
  (C6_domain_scoping (fun _ => true)
      ["https://evil.com/x", "https://sub.example.com/y", "https://notexample.com/z"]
      [] "https://example.com/a" (by decide)).1
    "https://sub.example.com/y" (by decide)

/-- C7: on a response that carries the sitemap-index marker and parses,
parse_sitemap satisfies the recursive flattening equation: the result is
the concatenation, in document order of the child loc entries, of
parse_sitemap applied to each child URL (at one step less fuel); and the
concrete index of two children with three leaves each resolves to the
six URLs in index-then-leaf order. -/
theorem C7_sitemap_index_recursion (env : String → Option SmResponse)
    (url : String) (f : Nat) (r : SmResponse) (doc : SmDoc)
    (h1 : env url = some r) (h2 : r.status = 200)
    (h3 : r.hasIndexMarker = true) (h4 : r.parse = some doc) :
    parse_sitemap env (f + 1) url =
      doc.sitemapLocs.flatMap (fun loc => parse_sitemap env f loc) ∧
    parse_sitemap smEnvIdx 2 "http://a/i" = ["u1", "u2", "u3", "u4", "u5", "u6"] := by
  refine ⟨?_, by decide⟩
  simp only [parse_sitemap, h1]
  rw [if_neg (by simp [h2]), if_pos h3, h4]

/-- Witness for C7: the recursion equation applied to the concrete
sitemap index. -/
theorem C7_witness :
    parse_sitemap smEnvIdx 2 "http://a/i" =
      (["http://a/s1", "http://a/s2"] : List String).flatMap
        (fun loc => parse_sitemap smEnvIdx 1 loc) :=
  (C7_sitemap_index_recursion smEnvIdx "http://a/i" 1
      { status := 200, hasIndexMarker := true,
        parse := some { sitemapLocs := ["http://a/s1", "http://a/s2"], urlLocs := [] } }
      { sitemapLocs := ["http://a/s1", "http://a/s2"], urlLocs := [] }
      rfl rfl rfl rfl).1

/-- C8: parse_sitemap returns the empty list on every failure: when the
fetch raises, when the response status is not 200, and when the body
fails to parse as XML; being a total function it never propagates an
exception to its caller. -/
theorem C8_sitemap_failures_empty (env : String → Option SmResponse)
    (url : String) (fuel : Nat) (r : SmResponse) :
    (env url = none → parse_sitemap env fuel url = []) ∧
    (env url = some r → r.status ≠ 200 → parse_sitemap env fuel url = []) ∧
    (env url = some r → r.parse = none → parse_sitemap env fuel url = []) := by
  rcases fuel with _ | f
  · exact ⟨fun _ => rfl, fun _ _ => rfl, fun _ _ => rfl⟩
  · refine ⟨fun h => ?_, fun h hs => ?_, fun h hp => ?_⟩
    · simp [parse_sitemap, h]
    · simp [parse_sitemap, h, hs]
    · simp only [parse_sitemap, h]
      split_ifs with h1 h2
      · rfl
      · simp [hp]
      · simp [hp]

/-- Witness for C8: concrete empty results for a fetch that raises, a
404 response, and a malformed body. -/
theorem C8_witness :
    parse_sitemap smEnvFail 3 "http://a/missing.xml" = [] ∧
    parse_sitemap smEnvFail 3 "http://a/404.xml" = [] ∧
    parse_sitemap smEnvFail 3 "http://a/bad.xml" = [] := by
  refine ⟨?_, ?_, ?_⟩
  · exact (C8_sitemap_failures_empty smEnvFail "http://a/missing.xml" 3 smNoResponse).1
      rfl
  · exact (C8_sitemap_failures_empty smEnvFail "http://a/404.xml" 3
      ⟨404, false, some ⟨[], ["x"]⟩⟩).2.1 rfl (by decide)
  · exact (C8_sitemap_failures_empty smEnvFail "http://a/bad.xml" 3
      ⟨200, false, none⟩).2.2 rfl rfl

/-- C9: with robots politeness enabled, when the robots.txt for the
authority of the URL is not cached and its fetch or parse fails, the
can_fetch check fails open and answers true: robots.txt unavailability
never blocks a URL. -/
theorem C9_robots_fail_open (env : RobotsEnv)
    (cache : List (String × RobotRules)) (url : String)
    (hc : cache.lookup (netloc url) = none)
    (hf : env.fetchRobots (netloc url) = none) :
    (can_fetch true env cache url).1 = true := by
  simp [can_fetch, get_robot_rules, hc, hf]

/-- Witness for C9: with an empty cache and a robots fetch that always
fails, a URL is allowed. -/
theorem C9_witness : (can_fetch true robotsEnvDown [] "http://a/x").1 = true :=
  C9_robots_fail_open robotsEnvDown [] "http://a/x" rfl rfl

/-- Running the crawl loop preserves the first entry of a non-empty
dispatch trace, since the loop only appends to the trace. -/
theorem crawlLoop_dispatched_head (env : CrawlEnv) (d p : Nat)
    (pats : List (String → Bool)) (fuel : Nat) (s : CrawlState) (u : String)
    (h : s.dispatched.head? = some u) :
    (crawlLoop env d p pats fuel s).dispatched.head? = some u := by
  obtain ⟨t, ht⟩ := crawlLoop_dispatched_extend env d p pats fuel s
  rw [ht]
  cases hd : s.dispatched with
  | nil => simp [hd] at h
  | cons a l =>
    rw [hd] at h
    simpa using h

/-- C1 counterexample: a crawl whose sitemap yields one URL dispatches
the start URL first and the sitemap URL second, so the sitemap-seeded
URLs are not processed before the explicit start URL. -/
theorem C1_counterexample :
    sitemapSeeds envOne "http://a/" = ["http://a/m"] ∧
    (crawl_with_depth envOne "http://a/" none none [] 3 100 5).dispatched =
      ["http://a/", "http://a/m"] ∧
    ("http://a/" : String) ≠ "http://a/m" := by decide

/-- C1 amended: in crawl_with_depth the queue is initialized with
(startUrl, 0) before sitemap seeding, so whenever the page budget and
fuel allow any processing at all, the explicit start URL is the first
URL dispatched, and the sitemap URLs follow it in the frontier in FIFO
order. -/
theorem C1_amended_start_first (env : CrawlEnv) (start_url : String)
    (mdArg mpArg : Option Nat) (pats : List (String → Bool)) (iD iP : Nat)
    (fuel : Nat) (hp : 0 < effectiveParam mpArg iP) (hf : 0 < fuel) :
    initialFrontier env start_url =
      (start_url, 0) :: (sitemapSeeds env start_url).map (fun u => (u, 0)) ∧
    (crawl_with_depth env start_url mdArg mpArg pats iD iP fuel).dispatched.head? =
      some start_url := by
  refine ⟨seedQueue_eq _ _, ?_⟩
  obtain ⟨f, rfl⟩ : ∃ f, fuel = f + 1 := ⟨fuel - 1, by omega⟩
  unfold crawl_with_depth
  rw [show initialFrontier env start_url =
      (start_url, 0) :: (sitemapSeeds env start_url).map (fun u => (u, 0)) from
    seedQueue_eq _ _]
  simp only [crawlLoop]
  split_ifs with h1 h2 ht hstop hdep
  · exact absurd h1 (by omega)
  · simp at h2
  · simp
  · exact crawlLoop_dispatched_head _ _ _ _ _ _ _ (by simp)
  · exact crawlLoop_dispatched_head _ _ _ _ _ _ _ (by simp)
  · exact crawlLoop_dispatched_head _ _ _ _ _ _ _ (by simp)

/-- Witness for the amended C1 on the concrete one-sitemap-URL crawl. -/
theorem C1_witness :
    initialFrontier envOne "http://a/" =
      ("http://a/", 0) :: (sitemapSeeds envOne "http://a/").map (fun u => (u, 0)) ∧
    (crawl_with_depth envOne "http://a/" none none [] 3 100 5).dispatched.head? =
      some "http://a/" :=
  C1_amended_start_first envOne "http://a/" none none [] 3 100 5 (by decide) (by decide)

/-- C2 counterexample: a URL listed twice in the sitemap enters the
frontier queue twice, because the visited set is empty during seeding,
so the enqueue-time check does not collapse duplicates. -/
theorem C2_counterexample :
    ((initialFrontier envDup "http://a/").map Prod.fst).count "http://a/m" = 2 := by
  decide

/-- C2 amended: the enqueue-time check only compares against the
visited set, which holds dispatched URLs, not queued ones, so a URL can
enter the frontier more than once; duplicates are collapsed at dequeue
instead: a dequeued entry whose URL is already visited is skipped with
no dispatch, and the enqueue loop never inserts a URL that is already
visited. -/
theorem C2_amended_dedup (env : CrawlEnv) (d p : Nat)
    (pats : List (String → Bool)) (fuel : Nat) (url : String) (dep : Nat)
    (rest : List (String × Nat)) (s : CrawlState)
    (hq : s.queue = (url, dep) :: rest) (hv : url ∈ s.visited)
    (hpc : s.pageCount < p) :
    crawlLoop env d p pats (fuel + 1) s =
      crawlLoop env d p pats fuel { s with queue := rest } ∧
    ∀ (links : List String) (q : List (String × Nat)) (x : String × Nat),
      x ∈ enqueueLinks pats s.visited dep q links → x ∈ q ∨ x.1 ∉ s.visited := by
  constructor
  · simp only [crawlLoop, hq]
    rw [if_neg (by omega), if_pos (Or.inl hv)]
  · exact fun links q x hx => enqueueLinks_fresh pats s.visited dep links q x hx

/-- Witness for the amended C2: a duplicated queue entry whose URL was
already dispatched is skipped, and a fresh link offered to the enqueue
loop is indeed not yet visited. -/
theorem C2_witness :
    crawlLoop envOne 3 100 [] 1
        { queue := [("http://a/m", 0)], visited := ["http://a/m"], results := [],
          pageCount := 0, dispatched := ["http://a/m"] } =
      crawlLoop envOne 3 100 [] 0
        { queue := [], visited := ["http://a/m"], results := [],
          pageCount := 0, dispatched := ["http://a/m"] } ∧
    (("http://b/x", 1) ∈ ([] : List (String × Nat)) ∨
      ("http://b/x" : String) ∉ ["http://a/m"]) := by
  have h := C2_amended_dedup envOne 3 100 [] 0 "http://a/m" 0 []
    ⟨[("http://a/m", 0)], ["http://a/m"], [], 0, ["http://a/m"]⟩ rfl (by decide)
    (by decide)
  exact ⟨h.1, h.2 ["http://b/x"] [] ("http://b/x", 1) (by decide)⟩
